import Mathlib

/-!
Shallow embedding of the QLogger repository (francescmm/QLogger).

The repository contains two historical variants of the same design:

* `src/QLogger.cpp` / `src/QLogger.h` — the older variant: `QLoggerManager`
  (routing table `moduleDest`, pre-registration buffer `mNonWriterQueue`,
  `enqueueMessage`, `addDestination`, `writeAndDequeueMessages`, destructor)
  and the older `QLoggerWriter` (its `enqueue` formats and appends
  unconditionally, its `run` loop drains a swapped batch).
* `src/QLoggerWriter.cpp` / `src/QLoggerLevel.h` — the newer `QLoggerWriter`:
  modes, display-option flags, file tags, split handling, and the
  run/closeDestination consumer loop.

Qt containers are modelled explicitly: `QMap` is a by-key-sorted association
list with replace-on-insert, `QMultiMap` a by-key-sorted association list in
which `insert` places the new value before the existing values of the same
key (Qt's documented "most recently inserted first" order), and iteration
from `find(k)` to `end()` walks from the first entry of key `k` to the end
of the whole container.  `QString` keys are Lean `String`s with Mathlib's
linear order standing in for Qt's lexicographic `operator<`.  Timestamps are
passed in already rendered (they come from the ambient clock in the code).
-/

namespace QLog

/-- LogLevel from src/QLoggerLevel.h and src/QLogger.h:
Trace = 0 < Debug < Info < Warning < Error < Fatal. -/
inductive LogLevel where
  | trace
  | debug
  | info
  | warning
  | error
  | fatal
deriving DecidableEq, Repr

/-- Underlying integer of the C++ enum. -/
def LogLevel.toNat : LogLevel → Nat
  | .trace => 0
  | .debug => 1
  | .info => 2
  | .warning => 3
  | .error => 4
  | .fatal => 5

/-- C++ comparison `a <= b` on the enum class. -/
def levelLe (a b : LogLevel) : Bool := a.toNat ≤ b.toNat

/-- `levelToText` (src/QLogger.cpp lines 59-78, identical anonymous-namespace
copy in src/QLoggerWriter.cpp lines 16-35). -/
def levelToText : LogLevel → String
  | .trace => "Trace"
  | .debug => "Debug"
  | .info => "Info"
  | .warning => "Warning"
  | .error => "Error"
  | .fatal => "Fatal"

/-- Lexicographic comparison of character lists by code point — Qt's
`QString::operator<`. -/
def charsLt : List Char → List Char → Bool
  | [], [] => false
  | [], _ :: _ => true
  | _ :: _, [] => false
  | a :: as, b :: bs =>
    if a.toNat < b.toNat then true
    else if a.toNat = b.toNat then charsLt as bs
    else false

/-- `QString` comparison used by `QMap`'s key order. -/
def strLt (a b : String) : Bool := charsLt a.data b.data

/-- `QMap::value(k)` / `QMultiMap::find(k)`s key test: first entry with the
given key (association-list lookup). -/
def qmapLookup (k : String) : List (String × α) → Option α
  | [] => none
  | e :: t => if e.1 = k then some e.2 else qmapLookup k t

/-- `QMap::insert` on a by-key-sorted association list: replaces the value
when the key is present, otherwise inserts at the sorted position. -/
def qmapInsert (k : String) (v : α) : List (String × α) → List (String × α)
  | [] => [(k, v)]
  | e :: t =>
    if strLt e.1 k then e :: qmapInsert k v t
    else if e.1 = k then (k, v) :: t
    else (k, v) :: e :: t

/-- In-place mutation of the writer object a key points at (the C++ code
mutates through the stored pointer). -/
def qmapUpdate (k : String) (v : α) : List (String × α) → List (String × α)
  | [] => []
  | e :: t => (if e.1 = k then (k, v) else e) :: qmapUpdate k v t

/-- `QMultiMap::insert` on a by-key-sorted association list: the new value
is placed before the already-present values of the same key (Qt documents
most-recently-inserted-first order within one key). -/
def qmmInsert (k : String) (v : α) : List (String × α) → List (String × α)
  | [] => [(k, v)]
  | e :: t => if strLt e.1 k then e :: qmmInsert k v t else (k, v) :: e :: t

/-- `QMultiMap::count(k)`: number of values stored for the key. -/
def qmmCount (k : String) (l : List (String × α)) : Nat :=
  (l.filter (fun e => e.1 = k)).length

/-- `QMultiMap::remove(k)`: drops every value of the key. -/
def qmmRemove (k : String) (l : List (String × α)) : List (String × α) :=
  l.filter (fun e => e.1 ≠ k)

/-- The portion of the container an iterator walks from `find(k)` to
`end()`: `none` when the key is absent (then `find` returns `end()`),
otherwise every entry from the first entry of key `k` to the end of the
container — entries of greater keys included. -/
def qmmFromFind (k : String) (l : List (String × α)) : Option (List (String × α)) :=
  if l.any (fun e => e.1 = k) then some (l.dropWhile (fun e => strLt e.1 k)) else none

/-- `file.mid(file.lastIndexOf(QChar('/')) + 1)` — the path's last
component (src/QLogger.cpp line 169). -/
def baseName (file : String) : String :=
  String.mk ((file.data.reverse.takeWhile (fun c => c ≠ '/')).reverse)

/-! ## Older variant: src/QLogger.cpp -/

/-- One formatted entry of the older writer's `messages` queue
(`QPair<QString, QString>` of thread id and rendered text).  The fields
`glevel`, `gmodule` and `gmsg` are ghost annotations recording the level,
module and raw message body of the `enqueue` call that produced the entry;
the code stores only `threadId` and `text`. -/
structure OEntry where
  threadId : String
  text : String
  glevel : LogLevel
  gmodule : String
  gmsg : String
deriving DecidableEq, Repr

/-- The `" {file:line}"` fragment of the older writer's `enqueue`
(src/QLogger.cpp lines 271-274): present whenever the file name is nonempty
and the line positive, with no look at any threshold. -/
def oldFileLine (fileName : String) (line : Int) : String :=
  if fileName ≠ "" ∧ line > 0 then
    " \x7b" ++ fileName ++ ":" ++ toString line ++ "\x7d"
  else ""

/-- The rendered line of the older writer's `enqueue`
(src/QLogger.cpp lines 276-278): `"[%1] [%2] [%3] [%4]%5 %6 \n"` applied to
level text, module, date string, thread id, file-line fragment, message. -/
def oldEnqueueText (dateStr threadId module : String) (level : LogLevel)
    (fileName : String) (line : Int) (message : String) : String :=
  "[" ++ levelToText level ++ "] [" ++ module ++ "] [" ++ dateStr ++ "] ["
    ++ threadId ++ "]" ++ oldFileLine fileName line ++ " " ++ message ++ " \n"

/-- Mutable state of the older `QLoggerWriter` (src/QLogger.h lines 125-144):
threshold level, stopped flag, pending formatted messages.  The file path is
irrelevant to the claims about this variant and omitted. -/
structure OldWriter where
  level : LogLevel
  isStop : Bool
  messages : List OEntry
deriving DecidableEq, Repr

/-- Older `QLoggerWriter::enqueue` (src/QLogger.cpp lines 268-284): formats
the text and appends it to the queue — for every level, unconditionally. -/
def OldWriter.enqueue (w : OldWriter) (dateStr threadId module : String)
    (level : LogLevel) (fileName : String) (line : Int) (message : String) : OldWriter :=
  { w with messages := w.messages ++
      [⟨threadId, oldEnqueueText dateStr threadId module level fileName line message,
        level, module, message⟩] }

/-- One raw tuple of the pre-registration buffer `mNonWriterQueue`
(src/QLogger.cpp lines 179-181: datetime, thread id, level, file name,
line, message). -/
structure BufMsg where
  dateStr : String
  threadId : String
  level : LogLevel
  fileName : String
  line : Int
  message : String
deriving DecidableEq, Repr

/-- `QLoggerManager` state (src/QLogger.h lines 210-235): the routing table
`moduleDest` (a `QMap`) and the pre-registration buffer `mNonWriterQueue`
(a `QMultiMap`). -/
structure OMgr where
  moduleDest : List (String × OldWriter)
  buffer : List (String × BufMsg)
deriving DecidableEq, Repr

/-- `QUEUE_LIMIT` (src/QLogger.cpp line 37). -/
def QUEUE_LIMIT : Nat := 100

/-- `QLoggerManager::writeAndDequeueMessages` (src/QLogger.cpp lines
131-162).  Faithful to the source: the iterator starts at
`mNonWriterQueue.find(module)` and runs to `end()` of the whole multimap,
so entries of lexicographically greater modules are also visited; the
module label used for every visited entry is `element.key()` captured
before the loop (the first entry's key, i.e. `module`); each visited entry
is enqueued when `logWriter->getLevel() <= level`; afterwards only
`module`'s own entries are removed from the buffer.  `drainInto` is the
loop body: every visited buffer entry whose level passes the writer's
threshold is enqueued on the writer, labelled with the captured module. -/
def drainInto (module : String) (portion : List (String × BufMsg)) (w : OldWriter) : OldWriter :=
  portion.foldl
    (fun acc e =>
      if levelLe acc.level e.2.level then
        acc.enqueue e.2.dateStr e.2.threadId module e.2.level e.2.fileName e.2.line e.2.message
      else acc) w

def writeAndDequeueMessages (mgr : OMgr) (module : String) : OMgr :=
  match qmmFromFind module mgr.buffer, qmapLookup module mgr.moduleDest with
  | some portion, some w =>
    if w.isStop then mgr
    else
      { moduleDest := qmapUpdate module (drainInto module portion w) mgr.moduleDest,
        buffer := qmmRemove module mgr.buffer }
  | _, _ => mgr

/-- `QLoggerManager::enqueueMessage` (src/QLogger.cpp lines 164-182).
When a writer for the module exists, is not stopped, and its level passes,
the pending buffer is drained first and then the live message enqueued; when
no writer exists and the module's buffer count is below `QUEUE_LIMIT`, the
raw tuple is inserted; otherwise nothing happens (in particular a message
for an existing but stopped writer is dropped). -/
def enqueueMessage (mgr : OMgr) (dateStr threadId module : String)
    (level : LogLevel) (message file : String) (line : Int) : OMgr :=
  let fileName := baseName file
  match qmapLookup module mgr.moduleDest with
  | some w =>
    if ¬w.isStop ∧ levelLe w.level level then
      let mgr1 := writeAndDequeueMessages mgr module
      match qmapLookup module mgr1.moduleDest with
      | some w1 =>
        let w2 := w1.enqueue dateStr threadId module level fileName line message
        { mgr1 with moduleDest := qmapUpdate module w2 mgr1.moduleDest }
      | none => mgr1
    else mgr
  | none =>
    if qmmCount module mgr.buffer < QUEUE_LIMIT then
      { mgr with buffer := qmmInsert module ⟨dateStr, threadId, level, fileName, line, message⟩ mgr.buffer }
    else mgr

/-- `QLoggerManager::addDestination` single-module overload
(src/QLogger.cpp lines 80-101): when the module is unbound, a fresh writer
is created with the given level and the manager-wide stop flag, the
synthetic Info message "Adding destination!" is enqueued on it
unconditionally, and the binding inserted; returns whether a binding was
created.  `fileDest` only names the file and is irrelevant here.
`freshWriter` is the writer a registration builds (src/QLogger.cpp lines
86-91): fresh queue, the given threshold, the manager-wide stop flag, and
the synthetic "Adding destination!" Info message enqueued
unconditionally. -/
def freshWriter (mIsStop : Bool) (dateStr threadId module : String)
    (level : LogLevel) : OldWriter :=
  OldWriter.enqueue { level := level, isStop := mIsStop, messages := [] }
    dateStr threadId module LogLevel.info ("") (-1) ("Adding destination!")

def addDestination (mgr : OMgr) (mIsStop : Bool) (dateStr threadId module : String)
    (level : LogLevel) : Bool × OMgr :=
  match qmapLookup module mgr.moduleDest with
  | some _ => (false, mgr)
  | none =>
    let md := qmapInsert module (freshWriter mIsStop dateStr threadId module level) mgr.moduleDest
    (true, { mgr with moduleDest := md })

/-- One iteration of the list overload's loop (src/QLogger.cpp lines
108-126), threading the accumulated `(allAdded, manager)` pair. -/
def addDestinationStep (mIsStop : Bool) (dateStr threadId : String) (level : LogLevel)
    (acc : Bool × OMgr) (module : String) : Bool × OMgr :=
  match qmapLookup module acc.2.moduleDest with
  | some _ => acc
  | none =>
    let md := qmapInsert module (freshWriter mIsStop dateStr threadId module level) acc.2.moduleDest
    (true, { acc.2 with moduleDest := md })

/-- The loop of the list overload over the remaining modules. -/
def addDestinationListAux (mIsStop : Bool) (dateStr threadId : String) (level : LogLevel)
    (acc : Bool × OMgr) : List String → Bool × OMgr
  | [] => acc
  | module :: rest =>
    addDestinationListAux mIsStop dateStr threadId level
      (addDestinationStep mIsStop dateStr threadId level acc module) rest

/-- `QLoggerManager::addDestination` list overload (src/QLogger.cpp lines
103-129): iterates the modules, creating a writer for each still-unbound
one; `allAdded` becomes true as soon as any binding is created. -/
def addDestinationList (mgr : OMgr) (mIsStop : Bool) (dateStr threadId : String)
    (modules : List String) (level : LogLevel) : Bool × OMgr :=
  addDestinationListAux mIsStop dateStr threadId level (false, mgr) modules

/-! ## Newer variant: src/QLoggerWriter.cpp with src/QLoggerLevel.h -/

/-- LogMode (src/QLoggerLevel.h lines 47-54). -/
inductive LogMode where
  | disabled
  | onlyConsole
  | onlyFile
  | full
  | defaultMode
deriving DecidableEq, Repr

/-- LogFileHandling (src/QLoggerLevel.h lines 69-75). -/
inductive LogFileHandling where
  | single
  | singleTagged
  | split
  | defaultHandling
deriving DecidableEq, Repr

/-- LogMessageDisplay bit values (src/QLoggerLevel.h lines 80-94); the
flag set `LogMessageDisplays` is the bitwise union. -/
def dLogLevel : Nat := 1
def dModuleName : Nat := 2
def dDateTime : Nat := 4
def dThreadId : Nat := 8
def dFunctionName : Nat := 16
def dFile : Nat := 32
def dLine : Nat := 64
def dMessage : Nat := 128
def dDefault : Nat := dLogLevel + dModuleName + dDateTime + dThreadId + dFile + dLine + dMessage

/-- `QFlags::testFlag(f)` for a nonzero flag `f`: all bits of `f` set. -/
def testFlag (flags f : Nat) : Bool := flags &&& f == f

/-- The `fileLine` fragment computed by the newer
`QLoggerWriter::enqueue` (src/QLoggerWriter.cpp lines 188-198): the
`{file:line}` form needs the File and Line display flags, a nonempty file
name, a positive line, and a writer threshold at or below Debug; the
`{file}{function}` form needs the File and Function flags, nonempty file
and function, and again threshold at or below Debug; otherwise empty. -/
def nwFileLine (wlevel : LogLevel) (opts : Nat) (function fileName : String)
    (line : Int) : String :=
  if testFlag opts dFile ∧ testFlag opts dLine ∧ fileName ≠ "" ∧ line > 0
      ∧ levelLe wlevel LogLevel.debug then
    "\x7b" ++ fileName ++ ":" ++ toString line ++ "\x7d"
  else if testFlag opts dFile ∧ testFlag opts dFunctionName ∧ fileName ≠ ""
      ∧ function ≠ "" ∧ levelLe wlevel LogLevel.debug then
    "\x7b" ++ fileName ++ "\x7d\x7b" ++ function ++ "\x7d"
  else ""

/-- The rendered text of the newer `QLoggerWriter::enqueue`
(src/QLoggerWriter.cpp lines 200-236).  `dateSecs` stands for
`date.toSecsSinceEpoch()`.  With the Default flag set the fixed format
`"[%1][%2][%3][%4]%5 %6"` is used; otherwise the selected fragments are
appended one by one (including the source's `fileLine.right(1)` trim when
the fragment starts with a space, and the space handling before the
message). -/
def nwText (wlevel : LogLevel) (opts : Nat) (dateSecs : Nat)
    (threadId module : String) (level : LogLevel) (function fileName : String)
    (line : Int) (message : String) : String :=
  let fileLine := nwFileLine wlevel opts function fileName line
  if testFlag opts dDefault then
    "[" ++ levelToText level ++ "][" ++ module ++ "][" ++ toString dateSecs
      ++ "][" ++ threadId ++ "]" ++ fileLine ++ " " ++ message
  else
    let t0 := ""
    let t1 := if testFlag opts dLogLevel then t0 ++ "[" ++ levelToText level ++ "]" else t0
    let t2 := if testFlag opts dModuleName then t1 ++ "[" ++ module ++ "]" else t1
    let t3 := if testFlag opts dDateTime then t2 ++ "[" ++ toString dateSecs ++ "]" else t2
    let t4 := if testFlag opts dThreadId then t3 ++ "[" ++ threadId ++ "]" else t3
    let fl := if fileLine.startsWith (" ") then fileLine.takeRight 1 else fileLine
    let t5 := if fileLine ≠ "" then t4 ++ fl else t4
    if testFlag opts dMessage then
      if t5 = "" ∨ t5.endsWith (" ") then t5 ++ message else t5 ++ " " ++ message
    else t5

/-- Mutable state of the newer `QLoggerWriter` relevant to enqueueing:
mode, threshold level, display options, stop flag and the pending
`mMessages` queue of rendered lines. -/
structure NWriter where
  mode : LogMode
  level : LogLevel
  opts : Nat
  isStop : Bool
  messages : List String
deriving DecidableEq, Repr

/-- Newer `QLoggerWriter::enqueue` (src/QLoggerWriter.cpp lines 180-242):
returns with the state unchanged when the mode is Disabled; otherwise
renders the text and appends it to `mMessages` — for every message level
and also when the stop flag is set (the stop flag only suppresses the
consumer wake-up, it never drops the message). -/
def NWriter.enqueue (w : NWriter) (dateSecs : Nat) (threadId module : String)
    (level : LogLevel) (function fileName : String) (line : Int)
    (message : String) : NWriter :=
  if w.mode = LogMode.disabled then w
  else
    { w with messages := w.messages ++
        [nwText w.level w.opts dateSecs threadId module level function fileName line message] }

/-! ### Filesystem model for writing and rotation -/

/-- A filesystem snapshot: association of path to file content. -/
abbrev FS := List (String × String)

/-- Content of a path, when the file exists. -/
def fsGet (fs : FS) (p : String) : Option String := qmapLookup p fs

/-- `QFile::size()`: the content length, 0 for a missing file. -/
def fsSize (fs : FS) (p : String) : Nat := ((fsGet fs p).getD ("")).length

/-- Create or overwrite a file. -/
def fsSet (fs : FS) (p c : String) : FS :=
  match fsGet fs p with
  | some _ => qmapUpdate p c fs
  | none => fs ++ [(p, c)]

/-- Remove a file. -/
def fsRemove (fs : FS) (p : String) : FS :=
  (fs : List (String × String)).filter (fun e => e.1 ≠ p)

/-- `QFile::rename(old, new)`: fails when the target already exists or the
source does not; on success the content moves to the new path. -/
def fsRename (fs : FS) (oldP newP : String) : FS × Bool :=
  match fsGet fs newP with
  | some _ => (fs, false)
  | none =>
    match fsGet fs oldP with
    | none => (fs, false)
    | some c => (fsSet (fsRemove fs oldP) newP c, true)

/-- Newer `QLoggerWriter::renameFileIfFull` (src/QLoggerWriter.cpp lines
109-124): when the destination file's size is at or past `mMaxFileSize`,
rename it to the freshly computed tagged name `newName` (which stands for
`getTaggedFileDestination(mkDateTag())`); return the new name on success
and the empty result (here `none`) when no rename happened or it failed. -/
def renameFileIfFull (fs : FS) (dest newName : String) (maxSize : Nat) :
    FS × Option String :=
  if fsSize fs dest ≥ maxSize then
    match fsRename fs dest newName with
    | (fs2, true) => (fs2, some newName)
    | (fs2, false) => (fs2, none)
  else (fs, none)

/-- Newer `QLoggerWriter::write` (src/QLoggerWriter.cpp lines 143-178) for
a writer whose `getFileDestination()` is `dest` (with Split handling that is
`mBareFileDestination`): console-only mode touches no file; otherwise, with
Split handling, `renameFileIfFull` runs first, then the batch is appended
to the file at `dest` (created afresh when the rename moved it away),
preceded by a `"Previous log <name>\n"` line when a rename happened.
`Qt::endl` terminates every message. -/
def nwWrite (mode : LogMode) (handling : LogFileHandling) (dest newName : String)
    (maxSize : Nat) (fs : FS) (msgs : List String) : FS :=
  if mode = LogMode.onlyConsole then fs
  else
    let st := if handling = LogFileHandling.split
      then renameFileIfFull fs dest newName maxSize else (fs, none)
    let header := match st.2 with
      | some n => "Previous log " ++ n ++ "\n"
      | none => ""
    let body := String.join (msgs.map (fun m => m ++ "\n"))
    fsSet st.1 dest (((fsGet st.1 dest).getD ("")) ++ header ++ body)

/-- The probe path of `generateDuplicateFilename` for suffix number `n`
(src/QLoggerWriter.cpp lines 129-133): the bare `base.ext` when `n` is at
most 1, otherwise `base(n).ext`. -/
def dupProbe (base ext : String) (n : Nat) : String :=
  if n > 1 then base ++ "(" ++ Nat.repr n ++ ")." ++ ext
  else base ++ "." ++ ext

/-- Newer `QLoggerWriter::generateDuplicateFilename` (src/QLoggerWriter.cpp
lines 126-141), starting from the default suffix number 1: probes the path
for the current suffix and recurses with the next number while the path
exists (`ex` is the `QFileInfo::exists` oracle).  The C++ recursion has no
termination bound, so the embedding carries explicit fuel and returns
`none` when the fuel runs out. -/
def generateDuplicateFilename (ex : String → Bool) (base ext : String) :
    Nat → Nat → Option String
  | 0, _ => none
  | fuel + 1, n =>
    let path := dupProbe base ext n
    if ex path then generateDuplicateFilename ex base ext fuel (n + 1)
    else some path

/-- Modelled from the spec: the rotation name the claim describes —
`<base>(<n>).<ext>` for the smallest positive `n` whose path does not
exist, probing `base(1).ext, base(2).ext, …` (spec sections 6 and 8).
Stated with the same fuel discipline for comparison with the code's
`generateDuplicateFilename`. -/
def specDedupName (ex : String → Bool) (base ext : String) :
    Nat → Nat → Option String
  | 0, _ => none
  | fuel + 1, n =>
    let path := base ++ "(" ++ Nat.repr n ++ ")." ++ ext
    if ex path then specDedupName ex base ext fuel (n + 1)
    else some path

/-! ### The newer consumer loop as a small-step machine -/

/-- Program points of the newer `QLoggerWriter::run`
(src/QLoggerWriter.cpp lines 244-269): the initial `if (!mQuit) wait`,
the `while (!mQuit)` test, the swap-and-write body, the point after
`write`, and the trailing `if (!mQuit) wait`. -/
inductive WPC where
  | start
  | wait0
  | check
  | writing
  | afterW
  | waitL
  | done
deriving DecidableEq, Repr

/-- Joint state of one newer writer's producer-visible queue and its
consumer loop.  `queue` is `mMessages`, `batch` the local `copy` being
written, `written` the lines already persisted, `quitFlag` is `mQuit`.
`log` is a ghost trace of every line ever enqueued, `preQuitLog` the ghost
subtrace of lines enqueued while `mQuit` was still false. -/
structure RunState where
  queue : List String
  batch : List String
  written : List String
  quitFlag : Bool
  log : List String
  preQuitLog : List String
  pc : WPC
deriving DecidableEq, Repr

/-- Interleaved small-step semantics of the newer writer: producer steps
(`enqueue` appending under the mutex, `close` setting `mQuit` and waking)
and consumer steps following `run`'s control flow.  A wait releases on a
wake; the model lets a waiting consumer resume at any step, which covers
exactly the wake orders the code permits. -/
inductive RStep : RunState → RunState → Prop where
  | enqueue (s : RunState) (m : String) :
      RStep s { s with queue := s.queue ++ [m], log := s.log ++ [m],
                       preQuitLog := if s.quitFlag then s.preQuitLog else s.preQuitLog ++ [m] }
  | close (s : RunState) :
      RStep s { s with quitFlag := true }
  | startT (s : RunState) (h : s.pc = WPC.start) :
      RStep s { s with pc := if s.quitFlag then WPC.check else WPC.wait0 }
  | wake0 (s : RunState) (h : s.pc = WPC.wait0) :
      RStep s { s with pc := WPC.check }
  | wakeL (s : RunState) (h : s.pc = WPC.waitL) :
      RStep s { s with pc := WPC.check }
  | checkQuit (s : RunState) (h : s.pc = WPC.check) (hq : s.quitFlag = true) :
      RStep s { s with pc := WPC.done }
  | checkSwap (s : RunState) (h : s.pc = WPC.check) (hq : s.quitFlag = false) :
      RStep s { s with pc := WPC.writing, batch := s.queue, queue := [] }
  | doWrite (s : RunState) (h : s.pc = WPC.writing) :
      RStep s { s with pc := WPC.afterW, written := s.written ++ s.batch, batch := [] }
  | afterWrite (s : RunState) (h : s.pc = WPC.afterW) :
      RStep s { s with pc := if s.quitFlag then WPC.check else WPC.waitL }

/-- Reachability in the writer machine. -/
def RReach : RunState → RunState → Prop := Relation.ReflTransGen RStep

/-- Initial state: empty queue, consumer about to run, not quitting. -/
def runInit : RunState :=
  { queue := [], batch := [], written := [], quitFlag := false,
    log := [], preQuitLog := [], pc := WPC.start }

/-- The entries `drainInto` appends: the buffer tuples whose level passes
the writer threshold, formatted and labelled with the captured module. -/
def drainEnts (module : String) (lvl : LogLevel) (portion : List (String × BufMsg)) : List OEntry :=
  portion.filterMap
    (fun e =>
      if levelLe lvl e.2.level then
        some ⟨e.2.threadId,
              oldEnqueueText e.2.dateStr e.2.threadId module e.2.level e.2.fileName e.2.line e.2.message,
              e.2.level, module, e.2.message⟩
      else none)

/-! ## Concrete states used by the analyses -/

/-- A manager with one bound writer for module `"a"`: threshold Trace,
stopped flag set (the state after `pause()`), empty queue and buffer. -/
def pausedMgr : OMgr := ⟨[("a", ⟨LogLevel.trace, true, []⟩)], []⟩

/-- Empty manager. -/
def emptyMgr : OMgr := ⟨[], []⟩

/-- Pre-registration scenario: three messages are submitted before any
destination exists — `"m1"` then `"m2"` for module `"a"`, then `"m3"` for
module `"b"`. -/
def preRegM1 : OMgr := enqueueMessage emptyMgr ("d1") ("t") ("a") LogLevel.info ("m1") ("") (-1)

def preRegM2 : OMgr := enqueueMessage preRegM1 ("d2") ("t") ("a") LogLevel.info ("m2") ("") (-1)

def preRegM3 : OMgr := enqueueMessage preRegM2 ("d3") ("t") ("b") LogLevel.info ("m3") ("") (-1)

/-- Module `"a"` is then registered at threshold Trace … -/
def preRegM4 : OMgr := (addDestination preRegM3 false ("d4") ("t") ("a") LogLevel.trace).2

/-- … and one live message for `"a"` arrives, which triggers the drain of
the pre-registration buffer in `enqueueMessage`. -/
def preRegM5 : OMgr := enqueueMessage preRegM4 ("d5") ("t") ("a") LogLevel.info ("live") ("") (-1)

/-- `QFileInfo::exists` oracle of a directory holding exactly `name.ext`. -/
def nameExtOnly : String → Bool := fun s => s == "name.ext"

/-- Writer-machine trace: the consumer reaches its initial wait. -/
def c4s1 : RunState := { runInit with pc := WPC.wait0 }

/-- A producer enqueues the line `"m"` (before any quit). -/
def c4s2 : RunState := { c4s1 with queue := ["m"], log := ["m"], preQuitLog := ["m"] }

/-- `closeDestination()` sets `mQuit` and wakes the consumer. -/
def c4s3 : RunState := { c4s2 with quitFlag := true }

/-- The consumer wakes from the initial wait. -/
def c4s4 : RunState := { c4s3 with pc := WPC.check }

/-- The `while (!mQuit)` test observes quit and the loop exits — without
ever swapping the queue. -/
def c4s5 : RunState := { c4s4 with pc := WPC.done }

/-! ## Lemmas about the container model -/

lemma charsLt_irrefl : ∀ cs : List Char, charsLt cs cs = false := by
  intro cs
  induction cs with
  | nil => rfl
  | cons a as ih => simp [charsLt, ih]

lemma strLt_irrefl (s : String) : strLt s s = false := charsLt_irrefl s.data

lemma qmapLookup_insert_self (k : String) (v : α) (l : List (String × α)) :
    qmapLookup k (qmapInsert k v l) = some v := by
  induction l with
  | nil => simp [qmapInsert, qmapLookup]
  | cons e t ih =>
    by_cases h1 : strLt e.1 k = true
    · have hne : e.1 ≠ k := by
        intro hk
        rw [hk, strLt_irrefl] at h1
        exact Bool.false_ne_true h1
      simp [qmapInsert, h1, qmapLookup, hne, ih]
    · by_cases h2 : e.1 = k
      · simp [qmapInsert, h1, h2, qmapLookup, strLt_irrefl]
      · simp [qmapInsert, h1, h2, qmapLookup]

lemma qmapLookup_insert_ne (k m : String) (v : α) (l : List (String × α)) (h : m ≠ k) :
    qmapLookup m (qmapInsert k v l) = qmapLookup m l := by
  induction l with
  | nil => simp [qmapInsert, qmapLookup, Ne.symm h]
  | cons e t ih =>
    by_cases h1 : strLt e.1 k = true
    · simp [qmapInsert, h1, qmapLookup, ih]
    · by_cases h2 : e.1 = k
      · have hem : e.1 ≠ m := by rw [h2]; exact Ne.symm h
        simp [qmapInsert, h1, h2, qmapLookup, Ne.symm h, hem, strLt_irrefl]
      · simp [qmapInsert, h1, h2, qmapLookup, Ne.symm h]

lemma qmapLookup_update_self (k : String) (v w : α) (l : List (String × α))
    (h : qmapLookup k l = some w) : qmapLookup k (qmapUpdate k v l) = some v := by
  induction l with
  | nil => simp [qmapLookup] at h
  | cons e t ih =>
    by_cases h1 : e.1 = k
    · simp [qmapUpdate, h1, qmapLookup]
    · rw [qmapLookup, if_neg h1] at h
      simp [qmapUpdate, h1, qmapLookup, ih h]

lemma qmapLookup_update_ne (k m : String) (v : α) (l : List (String × α)) (h : m ≠ k) :
    qmapLookup m (qmapUpdate k v l) = qmapLookup m l := by
  induction l with
  | nil => simp [qmapUpdate, qmapLookup]
  | cons e t ih =>
    by_cases h1 : e.1 = k
    · simp [qmapUpdate, h1, qmapLookup, Ne.symm h, ih]
    · by_cases h2 : e.1 = m
      · simp [qmapUpdate, h1, h2, qmapLookup, h]
      · simp [qmapUpdate, h1, h2, qmapLookup, ih]

lemma qmmCount_insert_self (k : String) (v : α) (l : List (String × α)) :
    qmmCount k (qmmInsert k v l) = qmmCount k l + 1 := by
  induction l with
  | nil => simp [qmmInsert, qmmCount]
  | cons e t ih =>
    by_cases h2 : e.1 = k
    · have h1 : strLt e.1 k = false := by rw [h2]; exact strLt_irrefl k
      simp [qmmInsert, h1, qmmCount, List.filter, h2, strLt_irrefl] at ih ⊢
    · by_cases h1 : strLt e.1 k = true
      · simp [qmmInsert, h1, qmmCount, List.filter, h2] at ih ⊢
        exact ih
      · simp [qmmInsert, h1, qmmCount, List.filter, h2]

/-! ## Lemmas about the drain loop -/

lemma drainInto_cons (module : String) (e : String × BufMsg)
    (t : List (String × BufMsg)) (w : OldWriter) :
    drainInto module (e :: t) w =
      drainInto module t
        (if levelLe w.level e.2.level then
          w.enqueue e.2.dateStr e.2.threadId module e.2.level e.2.fileName e.2.line e.2.message
         else w) := by
  by_cases h : levelLe w.level e.2.level = true
  · simp [drainInto, h]
  · simp [drainInto, h]

lemma drainInto_spec (module : String) (portion : List (String × BufMsg)) :
    ∀ w : OldWriter,
      (drainInto module portion w).level = w.level ∧
      (drainInto module portion w).isStop = w.isStop ∧
      (drainInto module portion w).messages = w.messages ++ drainEnts module w.level portion := by
  induction portion with
  | nil => intro w; simp [drainInto, drainEnts]
  | cons e t ih =>
    intro w
    rw [drainInto_cons]
    by_cases h : levelLe w.level e.2.level = true
    · rw [if_pos h]
      have step := ih (w.enqueue e.2.dateStr e.2.threadId module e.2.level e.2.fileName e.2.line e.2.message)
      refine ⟨step.1, step.2.1, ?_⟩
      rw [step.2.2]
      simp [OldWriter.enqueue, drainEnts, h, List.filterMap_cons]
    · rw [if_neg h]
      have step := ih w
      refine ⟨step.1, step.2.1, ?_⟩
      rw [step.2.2]
      simp [drainEnts, h, List.filterMap_cons]

lemma mem_drainEnts (module : String) (lvl : LogLevel) (portion : List (String × BufMsg))
    (e : OEntry) (h : e ∈ drainEnts module lvl portion) : levelLe lvl e.glevel = true := by
  rw [drainEnts, List.mem_filterMap] at h
  obtain ⟨a, _, ha⟩ := h
  by_cases hc : levelLe lvl a.2.level = true
  · rw [if_pos hc] at ha
    cases ha
    exact hc
  · rw [if_neg hc] at ha
    cases ha

/-! ## Lemmas about the filesystem model -/

lemma qmapLookup_append_none (k : String) (l1 l2 : List (String × α))
    (h : qmapLookup k l1 = none) : qmapLookup k (l1 ++ l2) = qmapLookup k l2 := by
  induction l1 with
  | nil => rfl
  | cons e t ih =>
    by_cases h1 : e.1 = k
    · rw [qmapLookup, if_pos h1] at h
      cases h
    · rw [qmapLookup, if_neg h1] at h
      simp [qmapLookup, h1, ih h]

lemma fsGet_remove_self (fs : FS) (p : String) : fsGet (fsRemove fs p) p = none := by
  induction fs with
  | nil => rfl
  | cons e t ih =>
    by_cases h1 : e.1 = p
    · simp [fsRemove, List.filter, h1] at ih ⊢
      simpa [fsRemove] using ih
    · simp [fsRemove, List.filter, h1] at ih ⊢
      simpa [fsGet, qmapLookup, h1, fsRemove] using ih

lemma fsGet_remove_ne (fs : FS) (p q : String) (h : q ≠ p) :
    fsGet (fsRemove fs p) q = fsGet fs q := by
  induction fs with
  | nil => rfl
  | cons e t ih =>
    by_cases h1 : e.1 = p
    · have hq : e.1 ≠ q := by rw [h1]; exact Ne.symm h
      simp [fsRemove, List.filter, h1, fsGet, qmapLookup, hq, Ne.symm h] at ih ⊢
      simpa [fsRemove, fsGet] using ih
    · by_cases h2 : e.1 = q
      · simp [fsRemove, List.filter, h1, fsGet, qmapLookup, h2, h]
      · simp [fsRemove, List.filter, h1, fsGet, qmapLookup, h2] at ih ⊢
        simpa [fsRemove, fsGet] using ih

lemma fsGet_set_self (fs : FS) (p c : String) : fsGet (fsSet fs p c) p = some c := by
  unfold fsSet
  cases h : fsGet fs p with
  | some c0 => exact qmapLookup_update_self p c c0 fs h
  | none =>
    unfold fsGet at h ⊢
    rw [qmapLookup_append_none p fs _ h]
    simp [qmapLookup]

lemma fsGet_set_ne (fs : FS) (p q c : String) (h : q ≠ p) :
    fsGet (fsSet fs p c) q = fsGet fs q := by
  unfold fsSet
  cases h0 : fsGet fs p with
  | some c0 => exact qmapLookup_update_ne p q c fs h
  | none =>
    unfold fsGet
    induction fs with
    | nil => simp [qmapLookup, Ne.symm h]
    | cons e t ih =>
      by_cases h1 : e.1 = q
      · simp [qmapLookup, h1]
      · unfold fsGet at h0
        rw [qmapLookup] at h0
        by_cases h2 : e.1 = p
        · rw [if_pos h2] at h0
          cases h0
        · rw [if_neg h2] at h0
          simp [qmapLookup, h1, ih h0]

lemma qmmCount_insert_ne (k m : String) (v : α) (l : List (String × α)) (h : m ≠ k) :
    qmmCount m (qmmInsert k v l) = qmmCount m l := by
  induction l with
  | nil => simp [qmmInsert, qmmCount, List.filter, Ne.symm h]
  | cons e t ih =>
    by_cases h1 : strLt e.1 k = true
    · simp [qmmInsert, h1, qmmCount, List.filter] at ih ⊢
      by_cases h2 : e.1 = m
      · simp [h2, ih]
      · simp [h2, ih]
    · simp [qmmInsert, h1, qmmCount, List.filter, Ne.symm h]

/-! ## Claim analyses -/

/-- C5: the pre-registration buffer of a module never exceeds
`QUEUE_LIMIT` = 100 entries.  For a submission whose module has no bound
writer: when the module's count is already at (or past) the limit the
manager state is returned unchanged — the message is dropped silently;
when the count is below the limit exactly one raw tuple is added for that
module; and every submission keeps every module's count at or below the
limit. -/
theorem c5_prereg_buffer_capped (mgr : OMgr) (dateStr threadId module : String)
    (level : LogLevel) (message file : String) (line : Int)
    (hw : qmapLookup module mgr.moduleDest = none) :
    (qmmCount module mgr.buffer ≥ QUEUE_LIMIT →
       enqueueMessage mgr dateStr threadId module level message file line = mgr) ∧
    (qmmCount module mgr.buffer < QUEUE_LIMIT →
       (enqueueMessage mgr dateStr threadId module level message file line).buffer =
         qmmInsert module ⟨dateStr, threadId, level, baseName file, line, message⟩ mgr.buffer ∧
       qmmCount module (enqueueMessage mgr dateStr threadId module level message file line).buffer =
         qmmCount module mgr.buffer + 1) ∧
    (∀ m2, qmmCount m2 mgr.buffer ≤ QUEUE_LIMIT →
       qmmCount m2 (enqueueMessage mgr dateStr threadId module level message file line).buffer ≤ QUEUE_LIMIT) := by
  by_cases hc : qmmCount module mgr.buffer < QUEUE_LIMIT
  · have he : enqueueMessage mgr dateStr threadId module level message file line =
        { mgr with buffer := qmmInsert module ⟨dateStr, threadId, level, baseName file, line, message⟩ mgr.buffer } := by
      simp [enqueueMessage, hw, hc]
    refine ⟨fun hge => absurd hc (by omega), fun _ => ⟨by rw [he], ?_⟩, ?_⟩
    · rw [he]
      exact qmmCount_insert_self module _ mgr.buffer
    · intro m2 hm2
      rw [he]
      by_cases hmm : m2 = module
      · subst hmm
        have := qmmCount_insert_self m2 (⟨dateStr, threadId, level, baseName file, line, message⟩ : BufMsg) mgr.buffer
        simp only [this]
        unfold QUEUE_LIMIT at hc ⊢
        omega
      · rw [qmmCount_insert_ne module m2 _ mgr.buffer hmm]
        exact hm2
  · have he : enqueueMessage mgr dateStr threadId module level message file line = mgr := by
      simp [enqueueMessage, hw, hc]
    refine ⟨fun _ => he, fun hlt => absurd hlt hc, fun m2 hm2 => ?_⟩
    rw [he]
    exact hm2

/-- Witness for C5 at a concrete input: empty manager, module `"a"`
unbound with empty buffer, one submission appends one tuple. -/
theorem c5_prereg_buffer_capped_witness :
    (enqueueMessage emptyMgr ("d") ("t") ("a") LogLevel.info ("m") ("") (-1)).buffer =
      qmmInsert ("a") ⟨"d", "t", LogLevel.info, baseName "", -1, "m"⟩ emptyMgr.buffer := by
  have h := c5_prereg_buffer_capped emptyMgr ("d") ("t") ("a") LogLevel.info ("m") ("") (-1) (by decide)
  exact (h.2.1 (by decide)).1

/-- C2 counterexample: a Writer for module `"a"` exists with threshold
Trace but its stopped flag is true (the system is paused).  A Fatal
message — far above the threshold — submitted for `"a"` leaves the manager
completely unchanged: the message is neither appended to the Writer's
queue nor buffered, so nothing can be written after resume.  The claim's
"the message is retained in the Writer's queue" is false on this code. -/
theorem c2_paused_submission_dropped :
    enqueueMessage pausedMgr ("d") ("t") ("a") LogLevel.fatal ("boom") ("") (-1) = pausedMgr ∧
    levelLe LogLevel.trace LogLevel.fatal = true ∧
    (qmapLookup ("a") pausedMgr.moduleDest).map OldWriter.messages = some [] := by
  decide

/-- C2 amended: in the older manager (src/QLogger.cpp) a message submitted
while its Writer's stopped flag is true is dropped at submission; in the
newer Writer (src/QLoggerWriter.cpp) `enqueue` appends the message to the
queue even when the stopped flag is set — the flag only suppresses the
consumer wake-up — so a message that reaches a (non-disabled) stopped
Writer is retained, in order, for the drain after resume. -/
theorem c2_new_enqueue_retains_while_stopped (mode : LogMode) (wlevel : LogLevel)
    (opts : Nat) (msgs : List String) (dateSecs : Nat) (threadId module : String)
    (level : LogLevel) (function fileName : String) (line : Int) (message : String)
    (h : mode ≠ LogMode.disabled) :
    (NWriter.enqueue ⟨mode, wlevel, opts, true, msgs⟩ dateSecs threadId module level function fileName line message).messages =
      msgs ++ [nwText wlevel opts dateSecs threadId module level function fileName line message] := by
  simp [NWriter.enqueue, h]

/-- Witness for C2's amended theorem at a concrete stopped writer. -/
theorem c2_new_enqueue_retains_while_stopped_witness :
    (NWriter.enqueue ⟨LogMode.onlyFile, LogLevel.trace, dDefault, true, []⟩ 7 ("t") ("a") LogLevel.info ("f") ("x.cpp") 3 ("m")).messages =
      [] ++ [nwText LogLevel.trace dDefault 7 ("t") ("a") LogLevel.info ("f") ("x.cpp") 3 ("m")] :=
  c2_new_enqueue_retains_while_stopped LogMode.onlyFile LogLevel.trace dDefault []
    7 ("t") ("a") LogLevel.info ("f") ("x.cpp") 3 ("m") (by decide)

/-- C10: neither variant's `Writer::enqueue` compares the message level
against the threshold.  The newer variant returns unchanged exactly when
the mode is Disabled and otherwise appends the rendered line for every
level; the older variant appends for every level unconditionally.  (The
threshold comparison `getLevel() <= level` lives only in the manager's
`enqueueMessage`.) -/
theorem c10_enqueue_no_threshold_check (w : NWriter) (dateSecs : Nat)
    (threadId module : String) (level : LogLevel) (function fileName : String)
    (line : Int) (message : String) (ow : OldWriter) (dateStr : String) :
    (w.mode = LogMode.disabled →
       NWriter.enqueue w dateSecs threadId module level function fileName line message = w) ∧
    (w.mode ≠ LogMode.disabled →
       (NWriter.enqueue w dateSecs threadId module level function fileName line message).messages =
         w.messages ++ [nwText w.level w.opts dateSecs threadId module level function fileName line message]) ∧
    ((OldWriter.enqueue ow dateStr threadId module level fileName line message).messages =
       ow.messages ++ [⟨threadId, oldEnqueueText dateStr threadId module level fileName line message,
                        level, module, message⟩]) := by
  refine ⟨fun h => ?_, fun h => ?_, ?_⟩
  · simp [NWriter.enqueue, h]
  · simp [NWriter.enqueue, h]
  · simp [OldWriter.enqueue]

/-- Witness for C10 at a concrete writer in Disabled mode and a concrete
old writer. -/
theorem c10_enqueue_no_threshold_check_witness :
    NWriter.enqueue ⟨LogMode.disabled, LogLevel.trace, dDefault, false, []⟩ 7 ("t") ("a") LogLevel.fatal ("f") ("x.cpp") 3 ("m") =
      ⟨LogMode.disabled, LogLevel.trace, dDefault, false, []⟩ :=
  (c10_enqueue_no_threshold_check ⟨LogMode.disabled, LogLevel.trace, dDefault, false, []⟩
    7 ("t") ("a") LogLevel.fatal ("f") ("x.cpp") 3 ("m") ⟨LogLevel.trace, false, []⟩ ("d")).1 (by decide)

/-- C7 counterexample: an older-variant Writer with threshold Error (above
Debug) still renders the `{file:line}` segment — its `enqueue` never looks
at the threshold.  The rendered line for file `"a.cpp"`, line 3 decomposes
around the segment `" {a.cpp:3}"` although `Error <= Debug` is false, so
"segment present iff threshold at or below Debug" fails. -/
theorem c7_old_writer_renders_above_debug :
    ((OldWriter.enqueue ⟨LogLevel.error, false, []⟩ ("d") ("t") ("m") LogLevel.fatal ("a.cpp") 3 ("hi")).messages.map OEntry.text) =
      ["[Fatal] [m] [d] [t] \x7ba.cpp:3\x7d hi \n"] ∧
    (∃ a b, "[Fatal] [m] [d] [t] \x7ba.cpp:3\x7d hi \n" = a ++ (" \x7ba.cpp:3\x7d" ++ b)) ∧
    levelLe LogLevel.error LogLevel.debug = false := by
  refine ⟨by decide, ⟨"[Fatal] [m] [d] [t]", " hi \n", by decide⟩, by decide⟩

/-- C7 amended: in the newer Writer the file/line text is rendered only
when the threshold is at or below Debug — above Debug the fragment is
always empty — and it equals the `{file:line}` segment whenever the File
and Line display flags are set, the file name is nonempty, the line is
positive and the threshold is at or below Debug.  In the older Writer the
`{file:line}` segment is rendered whenever the file name is nonempty and
the line positive, regardless of the threshold. -/
theorem c7_file_line_policy (wlevel : LogLevel) (opts : Nat)
    (function fileName : String) (line : Int) :
    (levelLe wlevel LogLevel.debug = false →
       nwFileLine wlevel opts function fileName line = "") ∧
    (testFlag opts dFile = true → testFlag opts dLine = true → fileName ≠ "" →
       line > 0 → levelLe wlevel LogLevel.debug = true →
       nwFileLine wlevel opts function fileName line =
         "\x7b" ++ fileName ++ ":" ++ toString line ++ "\x7d") ∧
    (fileName ≠ "" → line > 0 →
       oldFileLine fileName line = " \x7b" ++ fileName ++ ":" ++ toString line ++ "\x7d") := by
  refine ⟨fun h => ?_, fun h1 h2 h3 h4 h5 => ?_, fun h1 h2 => ?_⟩
  · simp [nwFileLine, h]
  · simp [nwFileLine, h1, h2, h3, h4, h5]
  · simp [oldFileLine, h1, h2]

/-- Witness for C7's amended theorem: a Warning-threshold newer writer
renders no file/line text. -/
theorem c7_file_line_policy_witness :
    nwFileLine LogLevel.warning dDefault ("f") ("x.cpp") 3 = "" :=
  (c7_file_line_policy LogLevel.warning dDefault ("f") ("x.cpp") 3).1 (by decide)

/-- C8 counterexample: with exactly `name.ext` on disk, the smallest
positive suffix whose path is unused is 1 (`name(1).ext` does not exist),
but the code returns `name(2).ext`: its first probe is the bare
`name.ext` (no suffix at all) and the suffix-1 path is never generated.
`specDedupName` is the claim's probe sequence and indeed yields
`name(1).ext`. -/
theorem c8_skips_suffix_one :
    generateDuplicateFilename nameExtOnly ("name") ("ext") 5 1 = some ("name(2).ext") ∧
    nameExtOnly ("name(1).ext") = false ∧
    specDedupName nameExtOnly ("name") ("ext") 5 1 = some ("name(1).ext") ∧
    ("name(2).ext" : String) ≠ "name(1).ext" := by
  decide

/-- C8 amended: `generateDuplicateFilename` returns the first unused path
of the probe sequence `dupProbe 1, dupProbe 2, …`, which is
`base.ext, base(2).ext, base(3).ext, …` — the bare name first, then
numeric suffixes starting at 2; `base(1).ext` is never probed or
returned.  Every probe before the returned one names an existing path. -/
theorem c8_probe_sequence (ex : String → Bool) (base ext : String) :
    ∀ (fuel n : Nat) (p : String),
      generateDuplicateFilename ex base ext fuel n = some p →
      ∃ k, n ≤ k ∧ p = dupProbe base ext k ∧ ex (dupProbe base ext k) = false ∧
        ∀ m, n ≤ m → m < k → ex (dupProbe base ext m) = true := by
  intro fuel
  induction fuel with
  | zero =>
    intro n p h
    cases h
  | succ f ih =>
    intro n p h
    unfold generateDuplicateFilename at h
    by_cases hex : ex (dupProbe base ext n) = true
    · rw [if_pos hex] at h
      obtain ⟨k, hk1, hk2, hk3, hk4⟩ := ih (n + 1) p h
      refine ⟨k, by omega, hk2, hk3, fun m hm1 hm2 => ?_⟩
      by_cases hmn : m = n
      · rw [hmn]
        exact hex
      · exact hk4 m (by omega) hm2
    · rw [if_neg hex] at h
      injection h with h2
      refine ⟨n, le_refl n, h2.symm, by simpa using hex, fun m hm1 hm2 => ?_⟩
      omega

/-- Witness for C8's amended theorem at the concrete directory. -/
theorem c8_probe_sequence_witness :
    ∃ k, 1 ≤ k ∧ ("name(2).ext" : String) = dupProbe ("name") ("ext") k ∧
      nameExtOnly (dupProbe ("name") ("ext") k) = false ∧
      ∀ m, 1 ≤ m → m < k → nameExtOnly (dupProbe ("name") ("ext") m) = true :=
  c8_probe_sequence nameExtOnly ("name") ("ext") 5 1 ("name(2).ext") (by decide)

lemma addListAux_flag (mIsStop : Bool) (dateStr threadId : String) (level : LogLevel) :
    ∀ (modules : List String) (mgr : OMgr) (b : Bool),
      ((addDestinationListAux mIsStop dateStr threadId level (b, mgr) modules).1 = true) ↔
        (b = true ∨ ∃ m ∈ modules, qmapLookup m mgr.moduleDest = none) := by
  intro modules
  induction modules with
  | nil =>
    intro mgr b
    simp [addDestinationListAux]
  | cons m0 t ih =>
    intro mgr b
    cases hm : qmapLookup m0 mgr.moduleDest with
    | some w =>
      simp only [addDestinationListAux, addDestinationStep, hm]
      rw [ih]
      simp [hm]
    | none =>
      simp only [addDestinationListAux, addDestinationStep, hm]
      rw [ih]
      constructor
      · intro _
        exact Or.inr ⟨m0, by simp, hm⟩
      · intro _
        exact Or.inl rfl

lemma addListAux_preserve (mIsStop : Bool) (dateStr threadId : String) (level : LogLevel) :
    ∀ (modules : List String) (acc : Bool × OMgr) (m : String) (w : OldWriter),
      qmapLookup m acc.2.moduleDest = some w →
      qmapLookup m (addDestinationListAux mIsStop dateStr threadId level acc modules).2.moduleDest = some w := by
  intro modules
  induction modules with
  | nil =>
    intro acc m w h
    simpa [addDestinationListAux] using h
  | cons m0 t ih =>
    intro acc m w h
    cases hm : qmapLookup m0 acc.2.moduleDest with
    | some w0 =>
      simp only [addDestinationListAux, addDestinationStep, hm]
      exact ih acc m w h
    | none =>
      have hne : m ≠ m0 := by
        intro he
        rw [he, hm] at h
        cases h
      simp only [addDestinationListAux, addDestinationStep, hm]
      apply ih
      simpa [qmapLookup_insert_ne m0 m _ _ hne] using h

/-- C9: single-module registration creates a Writer (and returns true)
exactly when the module is unbound, and returns `(false, unchanged)` when
it is bound; list registration returns true iff at least one listed module
was unbound in the starting state, and every already-bound module keeps
its existing Writer binding untouched. -/
theorem c9_registration_semantics (mgr : OMgr) (mIsStop : Bool)
    (dateStr threadId module : String) (modules : List String) (level : LogLevel) :
    (qmapLookup module mgr.moduleDest = none →
       (addDestination mgr mIsStop dateStr threadId module level).1 = true ∧
       qmapLookup module (addDestination mgr mIsStop dateStr threadId module level).2.moduleDest =
         some (freshWriter mIsStop dateStr threadId module level)) ∧
    (∀ w, qmapLookup module mgr.moduleDest = some w →
       addDestination mgr mIsStop dateStr threadId module level = (false, mgr)) ∧
    ((addDestinationList mgr mIsStop dateStr threadId modules level).1 = true ↔
       ∃ m ∈ modules, qmapLookup m mgr.moduleDest = none) ∧
    (∀ m w, qmapLookup m mgr.moduleDest = some w →
       qmapLookup m (addDestinationList mgr mIsStop dateStr threadId modules level).2.moduleDest = some w) := by
  refine ⟨fun h => ?_, fun w h => ?_, ?_, fun m w h => ?_⟩
  · have hstep : addDestination mgr mIsStop dateStr threadId module level =
        (true, ⟨qmapInsert module (freshWriter mIsStop dateStr threadId module level) mgr.moduleDest, mgr.buffer⟩) := by
      simp [addDestination, h]
    rw [hstep]
    exact ⟨rfl, qmapLookup_insert_self module _ mgr.moduleDest⟩
  · simp [addDestination, h]
  · rw [addDestinationList, addListAux_flag]
    simp
  · rw [addDestinationList]
    exact addListAux_preserve mIsStop dateStr threadId level modules (false, mgr) m w h

/-- Witness for C9 at a concrete state: registering `"a"` on the empty
manager succeeds. -/
theorem c9_registration_semantics_witness :
    (addDestination emptyMgr false ("d") ("t") ("a") LogLevel.info).1 = true :=
  ((c9_registration_semantics emptyMgr false ("d") ("t") ("a") [] LogLevel.info).1 (by decide)).1

/-- C6: rotation in the newer writer with Split handling.  When a write
finds the destination file at or past the configured maximum, the file is
renamed exactly once to the computed tagged name before the batch is
appended to a fresh file at the original path: on rename success the
renamed file holds exactly the pre-rotation content, the fresh file holds
the "Previous log" header plus the batch, and no other path changes; when
the rename fails (the target name already exists) the batch is appended to
the original, still oversized file and every other path — the rename
target included — is untouched. -/
theorem c6_rotation_split (fs : FS) (dest newName : String) (maxSize : Nat)
    (msgs : List String) (mode : LogMode) (c0 : String)
    (hmode : mode ≠ LogMode.onlyConsole)
    (hne : dest ≠ newName)
    (hdest : fsGet fs dest = some c0)
    (hsize : maxSize ≤ c0.length) :
    (fsGet fs newName = none →
       fsGet (nwWrite mode LogFileHandling.split dest newName maxSize fs msgs) newName = some c0 ∧
       fsGet (nwWrite mode LogFileHandling.split dest newName maxSize fs msgs) dest =
         some ("Previous log " ++ newName ++ "\n" ++ String.join (msgs.map (fun m => m ++ "\n"))) ∧
       (∀ p, p ≠ dest → p ≠ newName →
          fsGet (nwWrite mode LogFileHandling.split dest newName maxSize fs msgs) p = fsGet fs p)) ∧
    (∀ cN, fsGet fs newName = some cN →
       fsGet (nwWrite mode LogFileHandling.split dest newName maxSize fs msgs) newName = some cN ∧
       fsGet (nwWrite mode LogFileHandling.split dest newName maxSize fs msgs) dest =
         some (c0 ++ String.join (msgs.map (fun m => m ++ "\n"))) ∧
       (∀ p, p ≠ dest →
          fsGet (nwWrite mode LogFileHandling.split dest newName maxSize fs msgs) p = fsGet fs p)) := by
  have hsz : fsSize fs dest ≥ maxSize := by
    unfold fsSize
    rw [hdest]
    simpa using hsize
  constructor
  · intro hnew
    have hren : fsRename fs dest newName = (fsSet (fsRemove fs dest) newName c0, true) := by
      unfold fsRename
      rw [hnew, hdest]
    have hrot : renameFileIfFull fs dest newName maxSize =
        (fsSet (fsRemove fs dest) newName c0, some newName) := by
      unfold renameFileIfFull
      rw [if_pos hsz, hren]
    have hmid : fsGet (fsSet (fsRemove fs dest) newName c0) dest = none := by
      rw [fsGet_set_ne _ _ _ _ hne, fsGet_remove_self]
    have hw : nwWrite mode LogFileHandling.split dest newName maxSize fs msgs =
        fsSet (fsSet (fsRemove fs dest) newName c0) dest
          ("Previous log " ++ newName ++ "\n" ++ String.join (msgs.map (fun m => m ++ "\n"))) := by
      unfold nwWrite
      rw [if_neg hmode]
      simp [hrot, hmid]
    refine ⟨?_, ?_, ?_⟩
    · rw [hw, fsGet_set_ne _ _ _ _ (Ne.symm hne), fsGet_set_self]
    · rw [hw, fsGet_set_self]
    · intro p hp1 hp2
      rw [hw, fsGet_set_ne _ _ _ _ hp1, fsGet_set_ne _ _ _ _ hp2, fsGet_remove_ne _ _ _ hp1]
  · intro cN hnew
    have hren : fsRename fs dest newName = (fs, false) := by
      unfold fsRename
      rw [hnew]
    have hrot : renameFileIfFull fs dest newName maxSize = (fs, none) := by
      unfold renameFileIfFull
      rw [if_pos hsz, hren]
    have hw : nwWrite mode LogFileHandling.split dest newName maxSize fs msgs =
        fsSet fs dest (c0 ++ String.join (msgs.map (fun m => m ++ "\n"))) := by
      unfold nwWrite
      rw [if_neg hmode]
      simp [hrot, hdest]
    refine ⟨?_, ?_, ?_⟩
    · rw [hw, fsGet_set_ne _ _ _ _ (Ne.symm hne), hnew]
    · rw [hw, fsGet_set_self]
    · intro p hp1
      rw [hw, fsGet_set_ne _ _ _ _ hp1]

/-- Witness for C6 at a concrete filesystem: `logs/x.log` holds 10 bytes,
the maximum is 5, the tagged name is fresh — after the write the renamed
file holds exactly the old content. -/
theorem c6_rotation_split_witness :
    fsGet (nwWrite LogMode.onlyFile LogFileHandling.split ("logs/x.log") ("logs/x_tag.log") 5
        [("logs/x.log", "OLDCONTENT")] ["l1"]) ("logs/x_tag.log") = some ("OLDCONTENT") :=
  ((c6_rotation_split [("logs/x.log", "OLDCONTENT")] ("logs/x.log") ("logs/x_tag.log") 5
      ["l1"] LogMode.onlyFile ("OLDCONTENT") (by decide) (by decide) (by decide) (by decide)).1 (by decide)).1

/-- A manager with one bound writer for module `"a"`: threshold Info, not
stopped, empty queue and buffer. -/
def c1wMgr : OMgr := ⟨[("a", ⟨LogLevel.info, false, []⟩)], []⟩

/-- The entry an Error-level submission for `"a"` appends on `c1wMgr`. -/
def c1wEntry : OEntry :=
  ⟨"t", oldEnqueueText ("d") ("t") ("a") LogLevel.error ("") (-1) ("m"), LogLevel.error, "a", "m"⟩

/-- C1 counterexample: registering module `"a"` with threshold Error
creates a Writer whose queue already holds the synthetic
"Adding destination!" message at level Info — and Info does not satisfy
`levelLe Error Info`, so not every accepted message passes the Writer's
threshold: `addDestination` enqueues the synthetic Info message without
any threshold check (src/QLogger.cpp line 91). -/
theorem c1_synthetic_info_below_threshold :
    (qmapLookup ("a") (addDestination emptyMgr false ("d") ("t") ("a") LogLevel.error).2.moduleDest).map
        (fun w => w.messages.map (fun e => (e.glevel, levelLe w.level e.glevel))) =
      some [(LogLevel.info, false)] := by
  decide

/-- C1 amended: every entry a `enqueueMessage` call adds to any Writer's
queue — the live message as well as every pre-registration tuple drained
by `writeAndDequeueMessages` — satisfies `levelLe threshold level`; only
the synthetic registration message bypasses the check.  Formally: after a
submission, every entry of every bound Writer either was already present
before (in a Writer of the same threshold) or passes that Writer's
threshold. -/
theorem c1_submission_respects_threshold (mgr : OMgr) (dateStr threadId module : String)
    (level : LogLevel) (message file : String) (line : Int) (m2 : String)
    (w2 : OldWriter) (e : OEntry)
    (hw : qmapLookup m2 (enqueueMessage mgr dateStr threadId module level message file line).moduleDest = some w2)
    (he : e ∈ w2.messages) :
    (∃ w0, qmapLookup m2 mgr.moduleDest = some w0 ∧ w0.level = w2.level ∧ e ∈ w0.messages) ∨
    levelLe w2.level e.glevel = true := by
  cases hlw : qmapLookup module mgr.moduleDest with
  | none =>
    have hsame : (enqueueMessage mgr dateStr threadId module level message file line).moduleDest = mgr.moduleDest := by
      simp only [enqueueMessage, hlw]
      split
      · rfl
      · rfl
    rw [hsame] at hw
    exact Or.inl ⟨w2, hw, rfl, he⟩
  | some w =>
    by_cases hstop : w.isStop = true
    · have hres : enqueueMessage mgr dateStr threadId module level message file line = mgr := by
        simp [enqueueMessage, hlw, hstop]
      rw [hres] at hw
      exact Or.inl ⟨w2, hw, rfl, he⟩
    · have hstop2 : w.isStop = false := by
        cases hb : w.isStop
        · rfl
        · exact absurd hb hstop
      by_cases hlev : levelLe w.level level = true
      · cases hfind : qmmFromFind module mgr.buffer with
        | none =>
          have hwadm : writeAndDequeueMessages mgr module = mgr := by
            simp [writeAndDequeueMessages, hfind]
          have hres : enqueueMessage mgr dateStr threadId module level message file line =
              ⟨qmapUpdate module (w.enqueue dateStr threadId module level (baseName file) line message) mgr.moduleDest, mgr.buffer⟩ := by
            simp [enqueueMessage, hlw, hstop, hlev, hwadm]
          rw [hres] at hw
          by_cases hm2 : m2 = module
          · subst hm2
            rw [qmapLookup_update_self m2 _ w mgr.moduleDest hlw] at hw
            injection hw with hw2
            subst hw2
            simp only [OldWriter.enqueue, List.mem_append, List.mem_singleton] at he
            cases he with
            | inl hin => exact Or.inl ⟨w, hlw, rfl, hin⟩
            | inr heq =>
              subst heq
              exact Or.inr hlev
          · rw [qmapLookup_update_ne module m2 _ mgr.moduleDest hm2] at hw
            exact Or.inl ⟨w2, hw, rfl, he⟩
        | some portion =>
          have hwadm : writeAndDequeueMessages mgr module =
              ⟨qmapUpdate module (drainInto module portion w) mgr.moduleDest, qmmRemove module mgr.buffer⟩ := by
            simp [writeAndDequeueMessages, hfind, hlw, hstop2]
          have hlook1 : qmapLookup module (qmapUpdate module (drainInto module portion w) mgr.moduleDest) =
              some (drainInto module portion w) :=
            qmapLookup_update_self module _ w mgr.moduleDest hlw
          have hres : enqueueMessage mgr dateStr threadId module level message file line =
              ⟨qmapUpdate module ((drainInto module portion w).enqueue dateStr threadId module level (baseName file) line message) (qmapUpdate module (drainInto module portion w) mgr.moduleDest), qmmRemove module mgr.buffer⟩ := by
            simp [enqueueMessage, hlw, hstop, hlev, hwadm, hlook1]
          rw [hres] at hw
          have hdspec := drainInto_spec module portion w
          by_cases hm2 : m2 = module
          · subst hm2
            rw [qmapLookup_update_self m2 _ (drainInto m2 portion w) _ hlook1] at hw
            injection hw with hw2
            subst hw2
            simp only [OldWriter.enqueue, List.mem_append, List.mem_singleton] at he
            have hlvl2 : ((drainInto m2 portion w).enqueue dateStr threadId m2 level (baseName file) line message).level = w.level := by
              simp [OldWriter.enqueue, hdspec.1]
            cases he with
            | inl hin =>
              rw [hdspec.2.2, List.mem_append] at hin
              cases hin with
              | inl hold => exact Or.inl ⟨w, hlw, by simp [OldWriter.enqueue, hdspec.1], hold⟩
              | inr hdrain =>
                refine Or.inr ?_
                rw [hlvl2]
                exact mem_drainEnts m2 w.level portion e hdrain
            | inr heq =>
              subst heq
              refine Or.inr ?_
              rw [hlvl2]
              exact hlev
          · rw [qmapLookup_update_ne module m2 _ _ hm2, qmapLookup_update_ne module m2 _ _ hm2] at hw
            exact Or.inl ⟨w2, hw, rfl, he⟩
      · have hres : enqueueMessage mgr dateStr threadId module level message file line = mgr := by
          simp [enqueueMessage, hlw, hlev]
        rw [hres] at hw
        exact Or.inl ⟨w2, hw, rfl, he⟩

/-- Witness for C1's amended theorem: an Error-level message submitted for
the bound, Info-threshold module `"a"` is appended and indeed passes the
threshold. -/
theorem c1_submission_respects_threshold_witness :
    (∃ w0, qmapLookup ("a") c1wMgr.moduleDest = some w0 ∧
       w0.level = LogLevel.info ∧ c1wEntry ∈ w0.messages) ∨
    levelLe LogLevel.info c1wEntry.glevel = true :=
  c1_submission_respects_threshold c1wMgr ("d") ("t") ("a") LogLevel.error ("m") ("") (-1)
    ("a") ⟨LogLevel.info, false, [c1wEntry]⟩ c1wEntry (by decide) (by decide)

/-- C3: the pre-registration drain is buggy on three counts, shown on the
concrete scenario `preRegM5` (submit `m1`, `m2` to `"a"` and `m3` to
`"b"` before registration, register `"a"`, then submit `live`):
the Writer of `"a"` receives `m2` before `m1` (QMultiMap stores
most-recently-inserted first, so the drain delivers the module's buffered
messages in reverse submission order); it also receives `m3`, which
belongs to module `"b"`, relabelled as `"a"` (the drain loop iterates from
`find(module)` to the end of the whole multimap); and `m3` still sits in
the buffer afterwards (only `"a"`-keyed entries are removed), so it can be
delivered again.  This contradicts the code's own documentation of
`writeAndDequeueMessages` ("The queue is emptied for that module") and the
claim's per-module, in-order, clear-once delivery. -/
theorem c3_drain_misdelivers :
    (qmapLookup ("a") preRegM5.moduleDest).map (fun w => w.messages.map (fun e => (e.gmodule, e.gmsg))) =
      some [("a", "Adding destination!"), ("a", "m2"), ("a", "m1"), ("a", "m3"), ("a", "live")] ∧
    preRegM5.buffer.map (fun e => (e.1, e.2.message)) = [("b", "m3")] := by
  decide

/-- C4 counterexample: a valid interleaving of the newer writer machine in
which the line `"m"` is enqueued strictly before `closeDestination` sets
quit, yet the consumer — woken from its wait — observes quit at the
`while (!mQuit)` test and terminates without ever swapping the queue:
the machine reaches `done` with `"m"` still queued and nothing written, so
the message enqueued before shutdown is never persisted. -/
theorem c4_can_quit_without_drain :
    RReach runInit c4s5 ∧ c4s5.pc = WPC.done ∧ c4s5.preQuitLog = ["m"] ∧
    c4s5.written = [] ∧ c4s5.queue = ["m"] := by
  refine ⟨?_, by decide, by decide, by decide, by decide⟩
  have h1 : RStep runInit c4s1 := RStep.startT runInit rfl
  have h2 : RStep c4s1 c4s2 := RStep.enqueue c4s1 ("m")
  have h3 : RStep c4s2 c4s3 := RStep.close c4s2
  have h4 : RStep c4s3 c4s4 := RStep.wake0 c4s3 rfl
  have h5 : RStep c4s4 c4s5 := RStep.checkQuit c4s4 rfl rfl
  exact Relation.ReflTransGen.tail
    (Relation.ReflTransGen.tail
      (Relation.ReflTransGen.tail
        (Relation.ReflTransGen.tail (Relation.ReflTransGen.single h1) h2) h3) h4) h5

/-- C4 amended: the consumer loop never invents, duplicates or reorders
messages — in every reachable state the persisted lines followed by the
in-flight batch and the pending queue are exactly the enqueue log, and the
batch is empty except while writing.  But termination does not imply an
empty queue: as the counterexample trace shows, messages still queued
when the consumer observes quit (even ones enqueued before
`closeDestination`) are never written. -/
theorem c4_no_loss_no_dup_invariant (s : RunState) (h : RReach runInit s) :
    s.log = s.written ++ s.batch ++ s.queue ∧ (s.pc ≠ WPC.writing → s.batch = []) := by
  induction h with
  | refl => exact ⟨rfl, fun _ => rfl⟩
  | @tail b c hsteps hstep ih =>
    cases hstep with
    | enqueue m =>
      refine ⟨?_, fun hpc => ih.2 hpc⟩
      show b.log ++ [m] = b.written ++ b.batch ++ (b.queue ++ [m])
      rw [ih.1]
      simp [List.append_assoc]
    | close =>
      exact ⟨ih.1, fun hpc => ih.2 hpc⟩
    | startT hpc =>
      refine ⟨ih.1, fun _ => ih.2 ?_⟩
      rw [hpc]
      decide
    | wake0 hpc =>
      refine ⟨ih.1, fun _ => ih.2 ?_⟩
      rw [hpc]
      decide
    | wakeL hpc =>
      refine ⟨ih.1, fun _ => ih.2 ?_⟩
      rw [hpc]
      decide
    | checkQuit hpc hq =>
      refine ⟨ih.1, fun _ => ih.2 ?_⟩
      rw [hpc]
      decide
    | checkSwap hpc hq =>
      have hb : b.batch = [] := ih.2 (by rw [hpc]; decide)
      refine ⟨?_, fun hcontra => absurd rfl hcontra⟩
      show b.log = b.written ++ b.queue ++ []
      rw [ih.1, hb]
      simp
    | doWrite hpc =>
      refine ⟨?_, fun _ => rfl⟩
      show b.log = b.written ++ b.batch ++ [] ++ b.queue
      rw [ih.1]
      simp [List.append_assoc]
    | afterWrite hpc =>
      refine ⟨ih.1, fun _ => ih.2 ?_⟩
      rw [hpc]
      decide

/-- Witness for C4's amended invariant at the (trivially reachable)
initial state. -/
theorem c4_no_loss_no_dup_invariant_witness :
    runInit.log = runInit.written ++ runInit.batch ++ runInit.queue ∧
    (runInit.pc ≠ WPC.writing → runInit.batch = []) :=
  c4_no_loss_no_dup_invariant runInit Relation.ReflTransGen.refl

end QLog
